import Mathlib

/-!
Shallow embedding of the options-trading engine: the Black–Scholes pricing
functions (`src/models/black_scholes.py`), the option position entity
(`src/models/option.py`), the portfolio aggregation layer
(`src/models/portfolio.py`) and the book-update / risk-lookup logic of the
trade controller (`src/controllers/trade_controller.py`).

Machine floats are modelled as real numbers; Python's `round(x, 2)`
(round-half-to-even on the scaled value) is modelled exactly by
`roundHalfEven`; `scipy.stats.norm.cdf` / `norm.pdf` are the standard normal
cumulative distribution function and density, modelled via the Mathlib
Gaussian density.  UI-side inputs that may be absent (`None`) are modelled
with `Option` types; the controller's decimal input values are modelled as
rationals coerced to reals at position-construction time.
-/

open MeasureTheory ProbabilityTheory

set_option maxRecDepth 20000

/-- Round a real number to the nearest integer, ties going to the even
integer — the rounding mode of Python's built-in `round`. -/
noncomputable def roundHalfEven (y : ℝ) : ℤ :=
  open Classical in
  if Int.fract y = 1 / 2 then (if Even ⌊y⌋ then ⌊y⌋ else ⌊y⌋ + 1) else round y

/-- Python's `round(x, 2)`: round to two decimal places. -/
noncomputable def round2 (x : ℝ) : ℝ :=
  (roundHalfEven (100 * x) : ℝ) / 100

/-- Standard normal probability density (`scipy.stats.norm.pdf`). -/
noncomputable def normalPDF (x : ℝ) : ℝ :=
  gaussianPDFReal 0 1 x

/-- Standard normal cumulative distribution function
(`scipy.stats.norm.cdf`). -/
noncomputable def normalCDF (x : ℝ) : ℝ :=
  ∫ t in Set.Iic x, gaussianPDFReal 0 1 t

namespace BlackScholes

/-- `BlackScholes.d1`: `d1 = (ln(S/K) + (r + 0.5·σ²)·T) / (σ·√T)`. -/
noncomputable def d1 (S K T r sigma : ℝ) : ℝ :=
  (Real.log (S / K) + (r + 0.5 * sigma ^ 2) * T) / (sigma * Real.sqrt T)

/-- `BlackScholes.d2`: `d2 = d1 - σ·√T`. -/
noncomputable def d2 (S K T r sigma : ℝ) : ℝ :=
  d1 S K T r sigma - sigma * Real.sqrt T

/-- `BlackScholes.price`: Call price for `opt = "Call"`, Put price for any
other string (the Python code branches on `opt == "Call"`). -/
noncomputable def price (S K T r sigma : ℝ) (opt : String) : ℝ :=
  let D1 := d1 S K T r sigma
  let D2 := d2 S K T r sigma
  if opt = "Call" then
    S * normalCDF D1 - K * Real.exp (-r * T) * normalCDF D2
  else
    K * Real.exp (-r * T) * normalCDF (-D2) - S * normalCDF (-D1)

/-- `BlackScholes.delta`: `N(d1)` for a Call, `N(d1) - 1` otherwise. -/
noncomputable def delta (S K T r sigma : ℝ) (opt : String) : ℝ :=
  let D1 := d1 S K T r sigma
  if opt = "Call" then normalCDF D1 else normalCDF D1 - 1

/-- `BlackScholes.gamma`: `N'(d1) / (S·σ·√T)`, kind-independent. -/
noncomputable def gamma (S K T r sigma : ℝ) : ℝ :=
  normalPDF (d1 S K T r sigma) / (S * sigma * Real.sqrt T)

/-- `BlackScholes.vega`: `S·N'(d1)·√T`, kind-independent. -/
noncomputable def vega (S K T r sigma : ℝ) : ℝ :=
  S * normalPDF (d1 S K T r sigma) * Real.sqrt T

/-- `BlackScholes.theta`: Call branch for `opt = "Call"`, Put branch for any
other string. -/
noncomputable def theta (S K T r sigma : ℝ) (opt : String) : ℝ :=
  let D1 := d1 S K T r sigma
  let D2 := d2 S K T r sigma
  if opt = "Call" then
    -S * normalPDF D1 * sigma / (2 * Real.sqrt T)
      - r * K * Real.exp (-r * T) * normalCDF D2
  else
    -S * normalPDF D1 * sigma / (2 * Real.sqrt T)
      + r * K * Real.exp (-r * T) * normalCDF (-D2)

/-- `BlackScholes.rho`: Call branch for `opt = "Call"`, Put branch for any
other string. -/
noncomputable def rho (S K T r sigma : ℝ) (opt : String) : ℝ :=
  let D2 := d2 S K T r sigma
  if opt = "Call" then
    K * T * Real.exp (-r * T) * normalCDF D2
  else
    -K * T * Real.exp (-r * T) * normalCDF (-D2)

end BlackScholes

/-- The `Option` entity of `src/models/option.py` (named `OptionPosition`
here because `Option` is taken by Lean's core library).  Fields mirror the
Python attributes set in `Option.__init__`. -/
structure OptionPosition where
  type : String
  side : String
  strike : ℝ
  qty : ℝ
  vol : ℝ
  rate : ℝ
  maturity : ℝ
  price_entry : ℝ
  prime : ℝ

/-- `Option.__init__`: stores the fields, rounding the entry price to two
decimals, and derives the initial cash flow
`prime = round(qty · price_entry · (−1 if side == "BUY" else 1), 2)` from the
raw (unrounded) `price_entry` argument. -/
noncomputable def OptionPosition.make (type_ side : String)
    (strike qty vol rate maturity price_entry : ℝ) : OptionPosition :=
  { type := type_
    side := side
    strike := strike
    qty := qty
    vol := vol
    rate := rate
    maturity := maturity
    price_entry := round2 price_entry
    prime := round2 (qty * price_entry * (if side = "BUY" then -1 else 1)) }

/-- `Option.pnl`: `round(sign · qty · (BlackScholes.price(spot, strike,
maturity, rate, vol, type) − price_entry), 2)` with `sign = +1` when
`side == "BUY"` and `−1` otherwise. -/
noncomputable def OptionPosition.pnl (o : OptionPosition) (spot : ℝ) : ℝ :=
  let sign : ℝ := if o.side = "BUY" then 1 else -1
  let current_price :=
    BlackScholes.price spot o.strike o.maturity o.rate o.vol o.type
  round2 (sign * o.qty * (current_price - o.price_entry))

/-- `Portfolio.spot_grid = np.linspace(50, 150, 200)`: the 200 evenly spaced
grid points `50 + 100·i/199`, as exact rationals. -/
def spot_grid_q : List ℚ :=
  (List.range 200).map (fun i : ℕ => 50 + 100 * (i : ℚ) / 199)

/-- The spot grid as real numbers, for curve evaluation. -/
noncomputable def spot_grid : List ℝ :=
  spot_grid_q.map (fun q : ℚ => (q : ℝ))

/-- The six curves returned by `Portfolio.portfolio_curves`. -/
@[ext]
structure PortfolioCurves where
  pnl : List ℝ
  delta : List ℝ
  gamma : List ℝ
  vega : List ℝ
  theta : List ℝ
  rho : List ℝ

/-- The per-position contribution accumulated inside the loop of
`Portfolio.portfolio_curves`: for each grid spot,
`sign · qty · (price − price_entry)` for PnL and `sign · qty · greek` for the
five Greeks, with `sign = +1` when `side == "BUY"` and `−1` otherwise. -/
noncomputable def optionCurves (o : OptionPosition) : PortfolioCurves :=
  let sign : ℝ := if o.side = "BUY" then 1 else -1
  { pnl := spot_grid.map fun s =>
      sign * o.qty *
        (BlackScholes.price s o.strike o.maturity o.rate o.vol o.type - o.price_entry)
    delta := spot_grid.map fun s =>
      sign * o.qty * BlackScholes.delta s o.strike o.maturity o.rate o.vol o.type
    gamma := spot_grid.map fun s =>
      sign * o.qty * BlackScholes.gamma s o.strike o.maturity o.rate o.vol
    vega := spot_grid.map fun s =>
      sign * o.qty * BlackScholes.vega s o.strike o.maturity o.rate o.vol
    theta := spot_grid.map fun s =>
      sign * o.qty * BlackScholes.theta s o.strike o.maturity o.rate o.vol o.type
    rho := spot_grid.map fun s =>
      sign * o.qty * BlackScholes.rho s o.strike o.maturity o.rate o.vol o.type }

/-- The six running totals initialised by `np.zeros_like(Portfolio.spot_grid)`:
zero vectors of the grid's length. -/
noncomputable def zeroCurves : PortfolioCurves :=
  { pnl := List.replicate spot_grid.length 0
    delta := List.replicate spot_grid.length 0
    gamma := List.replicate spot_grid.length 0
    vega := List.replicate spot_grid.length 0
    theta := List.replicate spot_grid.length 0
    rho := List.replicate spot_grid.length 0 }

/-- Elementwise accumulation (`+=` on the six numpy arrays). -/
def addCurves (a b : PortfolioCurves) : PortfolioCurves :=
  { pnl := List.zipWith (fun x y => x + y) a.pnl b.pnl
    delta := List.zipWith (fun x y => x + y) a.delta b.delta
    gamma := List.zipWith (fun x y => x + y) a.gamma b.gamma
    vega := List.zipWith (fun x y => x + y) a.vega b.vega
    theta := List.zipWith (fun x y => x + y) a.theta b.theta
    rho := List.zipWith (fun x y => x + y) a.rho b.rho }

/-- `Portfolio.portfolio_curves`: fold over the book, accumulating each
position's contribution into running totals initialised to zeros. -/
noncomputable def portfolio_curves (book : List OptionPosition) : PortfolioCurves :=
  book.foldl (fun acc o => addCurves acc (optionCurves o)) zeroCurves

/-- `Portfolio.add_option`: appends a position to the book. -/
def add_option (book : List OptionPosition) (o : OptionPosition) :
    List OptionPosition :=
  book ++ [o]

/-- `Portfolio.flatten`: clears the book. -/
def flatten (_ : List OptionPosition) : List OptionPosition :=
  []

/-- `np.searchsorted(grid, x)` with the default `side='left'`: the first
index `i` with `x ≤ grid[i]`, or the grid's length when no such index
exists (for a sorted grid). -/
def searchsorted : List ℚ → ℚ → ℕ
  | [], _ => 0
  | g :: gs, x => if x ≤ g then 0 else searchsorted gs x + 1

/-- The PnL-at-current-spot lookup of `update_book`
(`src/controllers/trade_controller.py`): inside a `try`, take
`spot_idx = np.searchsorted(Portfolio.spot_grid, spot)` and read
`pnl[spot_idx]` when the curve is nonempty (0 for an empty curve); any
`IndexError` from an out-of-range index is caught and yields 0. -/
noncomputable def current_pnl (pnlCurve : List ℝ) (spot : ℚ) : ℝ :=
  let spot_idx := searchsorted spot_grid_q spot
  if 0 < pnlCurve.length then (pnlCurve.get? spot_idx).getD 0 else 0

/-- The `State(...)` inputs of the `update_book` Dash callback; `none`
models a `None` (absent) input. -/
structure TradeInput where
  opt : Option String
  side : Option String
  strike : Option ℚ
  qty : Option ℚ
  spot : Option ℚ
  vol : Option ℚ
  rate : Option ℚ
  maturity : Option ℚ
  price_input : Option ℚ

/-- An empty callback input: every field absent (`None`). -/
def TradeInput.empty : TradeInput :=
  ⟨none, none, none, none, none, none, none, none, none⟩

/-- The book-state transition of the `update_book` callback: defaults are
substituted for missing inputs only; a flatten trigger clears the book; a
trade trigger rejects a negative explicit entry price (book unchanged,
error flag set) and otherwise appends a position priced either at the
explicit positive entry price or at the Black–Scholes model price.  Returns
the new book together with `show_error`. -/
noncomputable def update_book (book : List OptionPosition)
    (triggered_id : Option String) (inp : TradeInput) :
    List OptionPosition × Bool :=
  let spot := inp.spot.getD 100
  let qty := inp.qty.getD 1
  let strike := inp.strike.getD spot
  let vol := inp.vol.getD (1 / 5)
  let rate := inp.rate.getD (1 / 100)
  let maturity := inp.maturity.getD (1 / 2)
  let price_input := inp.price_input.getD 0
  let opt := if inp.opt = some "Call" ∨ inp.opt = some "Put"
    then inp.opt.getD "Call" else "Call"
  let side := if inp.side = some "BUY" ∨ inp.side = some "SELL"
    then inp.side.getD "BUY" else "BUY"
  if triggered_id = some "flatten" then
    (flatten book, false)
  else if triggered_id = some "trade" then
    if price_input < 0 then
      (book, true)
    else
      let price_entry : ℝ := if 0 < price_input then (price_input : ℝ)
        else BlackScholes.price (spot : ℝ) (strike : ℝ) (maturity : ℝ)
          (rate : ℝ) (vol : ℝ) opt
      (add_option book
        (OptionPosition.make opt side (strike : ℝ) (qty : ℝ) (vol : ℝ)
          (rate : ℝ) (maturity : ℝ) price_entry), false)
  else
    (book, false)

lemma roundHalfEven_intCast (n : ℤ) : roundHalfEven (n : ℝ) = n := by
  have h0 : Int.fract (n : ℝ) = 0 := Int.fract_intCast n
  rw [roundHalfEven, if_neg (by rw [h0]; norm_num), round_intCast]

lemma roundHalfEven_neg (y : ℝ) : roundHalfEven (-y) = -roundHalfEven y := by
  by_cases h0 : Int.fract y = 0
  · obtain ⟨n, rfl⟩ : ∃ n : ℤ, y = (n : ℝ) :=
      ⟨⌊y⌋, by rw [← Int.self_sub_fract y, h0, sub_zero]⟩
    rw [← Int.cast_neg, roundHalfEven_intCast, roundHalfEven_intCast]
  · have hf0 : 0 < Int.fract y := lt_of_le_of_ne (Int.fract_nonneg y) (Ne.symm h0)
    have hfr : y = (⌊y⌋ : ℝ) + Int.fract y := (Int.floor_add_fract y).symm
    have hfl : (⌊y⌋ : ℝ) < y := by linarith
    have hfu : y < ⌊y⌋ + 1 := Int.lt_floor_add_one y
    have hnegfloor : ⌊-y⌋ = -⌊y⌋ - 1 := by
      rw [Int.floor_eq_iff]
      constructor
      · push_cast; linarith
      · push_cast; linarith
    have hfneg : Int.fract (-y) = 1 - Int.fract y := Int.fract_neg h0
    by_cases h : Int.fract y = 1 / 2
    · have hneg2 : Int.fract (-y) = 1 / 2 := by rw [hfneg, h]; norm_num
      rw [roundHalfEven, roundHalfEven, if_pos hneg2, if_pos h, hnegfloor]
      have heven : Even (-⌊y⌋ - 1) ↔ ¬ Even ⌊y⌋ := by
        rw [show -⌊y⌋ - 1 = -(⌊y⌋ + 1) by ring, even_neg, Int.even_add_one]
      by_cases he : Even ⌊y⌋
      · rw [if_neg (by rw [heven]; exact fun hc => hc he), if_pos he]; ring
      · rw [if_pos (heven.mpr he), if_neg he]; ring
    · have hneg2 : Int.fract (-y) ≠ 1 / 2 := by
        rw [hfneg]
        intro hc
        exact h (by linarith)
      rw [roundHalfEven, roundHalfEven, if_neg hneg2, if_neg h, round_eq, round_eq]
      have hf1 : Int.fract y < 1 := Int.fract_lt_one y
      by_cases hf : Int.fract y < 1 / 2
      · have e1 : ⌊y + 1 / 2⌋ = ⌊y⌋ := by
          rw [Int.floor_eq_iff]
          constructor
          · linarith
          · linarith
        have e2 : ⌊-y + 1 / 2⌋ = -⌊y⌋ := by
          rw [Int.floor_eq_iff]
          constructor
          · push_cast; linarith
          · push_cast; linarith
        rw [e1, e2]
      · have hf' : 1 / 2 < Int.fract y := lt_of_le_of_ne (not_lt.1 hf) (Ne.symm h)
        have e1 : ⌊y + 1 / 2⌋ = ⌊y⌋ + 1 := by
          rw [Int.floor_eq_iff]
          constructor
          · push_cast; linarith
          · push_cast; linarith
        have e2 : ⌊-y + 1 / 2⌋ = -⌊y⌋ - 1 := by
          rw [Int.floor_eq_iff]
          constructor
          · push_cast; linarith
          · push_cast; linarith
        rw [e1, e2]; ring

lemma roundHalfEven_nonneg {y : ℝ} (h : 0 ≤ y) : 0 ≤ roundHalfEven y := by
  rw [roundHalfEven]
  have hfl : (0 : ℤ) ≤ ⌊y⌋ := Int.floor_nonneg.2 h
  by_cases ht : Int.fract y = 1 / 2
  · rw [if_pos ht]
    by_cases he : Even ⌊y⌋
    · rw [if_pos he]; exact hfl
    · rw [if_neg he]; omega
  · rw [if_neg ht, round_eq]
    exact Int.floor_nonneg.2 (by linarith)

lemma roundHalfEven_pos {y : ℝ} (h : 1 / 2 < y) : 0 < roundHalfEven y := by
  rw [roundHalfEven]
  by_cases ht : Int.fract y = 1 / 2
  · rw [if_pos ht]
    have hfl : (0 : ℝ) < (⌊y⌋ : ℝ) := by
      have := Int.self_sub_fract y
      rw [ht] at this
      linarith
    have hfl' : 0 < ⌊y⌋ := by exact_mod_cast hfl
    by_cases he : Even ⌊y⌋
    · rw [if_pos he]; exact hfl'
    · rw [if_neg he]; omega
  · rw [if_neg ht, round_eq]
    have : (1 : ℤ) ≤ ⌊y + 1 / 2⌋ := Int.le_floor.2 (by push_cast; linarith)
    omega

lemma round2_neg (x : ℝ) : round2 (-x) = -round2 x := by
  rw [round2, round2, show 100 * -x = -(100 * x) by ring, roundHalfEven_neg]
  push_cast
  ring

lemma round2_nonneg {x : ℝ} (h : 0 ≤ x) : 0 ≤ round2 x := by
  have : (0 : ℝ) ≤ (roundHalfEven (100 * x) : ℝ) := by
    exact_mod_cast roundHalfEven_nonneg (by linarith)
  rw [round2]
  positivity

lemma round2_pos {x : ℝ} (h : 1 / 200 < x) : 0 < round2 x := by
  have : (0 : ℝ) < (roundHalfEven (100 * x) : ℝ) := by
    exact_mod_cast roundHalfEven_pos (by linarith)
  rw [round2]
  positivity

lemma gaussianPDFReal_neg (t : ℝ) :
    gaussianPDFReal 0 1 (-t) = gaussianPDFReal 0 1 t := by
  simp [gaussianPDFReal, neg_sq]

lemma normalCDF_add_neg (x : ℝ) : normalCDF x + normalCDF (-x) = 1 := by
  have h1 : normalCDF (-x) = ∫ t in Set.Ioi x, gaussianPDFReal 0 1 t := by
    rw [normalCDF]
    have hc : (∫ t in Set.Iic (-x), gaussianPDFReal 0 1 t) =
        ∫ t in Set.Iic (-x), gaussianPDFReal 0 1 (-t) :=
      setIntegral_congr_fun measurableSet_Iic fun t _ => (gaussianPDFReal_neg t).symm
    rw [hc, integral_comp_neg_Iic (-x) (gaussianPDFReal 0 1), neg_neg]
  rw [normalCDF, h1, ← Set.compl_Iic]
  rw [integral_add_compl measurableSet_Iic (integrable_gaussianPDFReal 0 1)]
  exact integral_gaussianPDFReal_eq_one 0 one_ne_zero

lemma round2_of_mul_eq_int {x : ℝ} (n : ℤ) (h : 100 * x = (n : ℝ)) :
    round2 x = (n : ℝ) / 100 := by
  rw [round2, h, roundHalfEven_intCast]

lemma round2_eq_zero {x : ℝ} (h0 : 0 ≤ x) (h1 : 100 * x < 1 / 2) :
    round2 x = 0 := by
  have hfr : Int.fract (100 * x) = 100 * x :=
    Int.fract_eq_self.2 ⟨by linarith, by linarith⟩
  have hne : Int.fract (100 * x) ≠ 1 / 2 := by rw [hfr]; linarith
  have hrd : round (100 * x) = 0 := by
    rw [round_eq]
    exact Int.floor_eq_zero_iff.2 ⟨by linarith, by linarith⟩
  rw [round2, roundHalfEven, if_neg hne, hrd, Int.cast_zero, zero_div]

/-- C1: for every option position with side `"BUY"` (Long) or `"SELL"`
(Short) and every spot, `pnl(spot)` equals
`sign · qty · (BlackScholes.price(spot, strike, maturity, rate, vol, type) −
price_entry)` rounded to 2 decimals, with `sign = +1` for `"BUY"` and `−1`
for `"SELL"`, `price_entry` being the position's stored entry price. -/
theorem C1_pnl_formula (o : OptionPosition) (spot : ℝ) :
    ({ o with side := "BUY" } : OptionPosition).pnl spot =
      round2 (1 * o.qty *
        (BlackScholes.price spot o.strike o.maturity o.rate o.vol o.type
          - o.price_entry)) ∧
    ({ o with side := "SELL" } : OptionPosition).pnl spot =
      round2 ((-1) * o.qty *
        (BlackScholes.price spot o.strike o.maturity o.rate o.vol o.type
          - o.price_entry)) := by
  constructor
  · simp only [OptionPosition.pnl, String.reduceEq, reduceIte]
  · simp only [OptionPosition.pnl, String.reduceEq, reduceIte]

/-- C8: put–call parity — for valid inputs `S, K, T, σ > 0` and any rate,
`price(Call) − price(Put) = S − K·e^{−rT}`. -/
theorem C8_put_call_parity (S K T r sigma : ℝ) (_hS : 0 < S) (_hK : 0 < K)
    (_hT : 0 < T) (_hsigma : 0 < sigma) :
    BlackScholes.price S K T r sigma "Call"
        - BlackScholes.price S K T r sigma "Put" =
      S - K * Real.exp (-r * T) := by
  have h1 := normalCDF_add_neg (BlackScholes.d1 S K T r sigma)
  have h2 := normalCDF_add_neg (BlackScholes.d2 S K T r sigma)
  simp only [BlackScholes.price, String.reduceEq, reduceIte]
  linear_combination S * h1 - K * Real.exp (-r * T) * h2

theorem C8_put_call_parity_witness :
    (0 : ℝ) < 1 ∧
    BlackScholes.price 1 1 1 0 1 "Call" - BlackScholes.price 1 1 1 0 1 "Put" =
      1 - 1 * Real.exp (-0 * 1) :=
  ⟨one_pos, C8_put_call_parity 1 1 1 0 1 one_pos one_pos one_pos one_pos⟩

/-- C6 counterexample: for the position built with side `"SELL"`,
`qty = 10` and raw entry price `1/250 = 0.004`, the stored entry price
rounds to `0` while the stored premium is `round(10 · 0.004, 2) = 0.04`;
this differs from `round(qty · entryPrice, 2) = 0` computed from the stored
(rounded) entry price, refuting the claim that the premium is
`±quantity · entryPrice` (stored entry price) rounded to 2 decimals. -/
theorem C6_counterexample :
    (OptionPosition.make "Call" "SELL" 100 10 (1 / 5) (1 / 100) (1 / 2)
        (1 / 250)).price_entry = 0 ∧
    (OptionPosition.make "Call" "SELL" 100 10 (1 / 5) (1 / 100) (1 / 2)
        (1 / 250)).prime = 1 / 25 ∧
    (OptionPosition.make "Call" "SELL" 100 10 (1 / 5) (1 / 100) (1 / 2)
        (1 / 250)).prime ≠
      round2 ((OptionPosition.make "Call" "SELL" 100 10 (1 / 5) (1 / 100)
          (1 / 2) (1 / 250)).qty *
        (OptionPosition.make "Call" "SELL" 100 10 (1 / 5) (1 / 100) (1 / 2)
          (1 / 250)).price_entry) := by
  have hpe : (OptionPosition.make "Call" "SELL" 100 10 (1 / 5) (1 / 100)
      (1 / 2) (1 / 250)).price_entry = 0 := by
    show round2 (1 / 250) = 0
    exact round2_eq_zero (by norm_num) (by norm_num)
  have hpr : (OptionPosition.make "Call" "SELL" 100 10 (1 / 5) (1 / 100)
      (1 / 2) (1 / 250)).prime = 1 / 25 := by
    show round2 ((10 : ℝ) * (1 / 250) *
      (if ("SELL" : String) = "BUY" then -1 else 1)) = 1 / 25
    rw [if_neg (by decide)]
    have h4 : round2 ((10 : ℝ) * (1 / 250) * 1) = ((4 : ℤ) : ℝ) / 100 :=
      round2_of_mul_eq_int 4 (by norm_num)
    rw [h4]
    norm_num
  refine ⟨hpe, hpr, ?_⟩
  rw [hpr, hpe]
  have : round2 ((OptionPosition.make "Call" "SELL" 100 10 (1 / 5) (1 / 100)
      (1 / 2) (1 / 250)).qty * 0) = 0 := by
    rw [show (OptionPosition.make "Call" "SELL" 100 10 (1 / 5) (1 / 100)
      (1 / 2) (1 / 250)).qty * 0 = 0 by ring]
    exact round2_eq_zero le_rfl (by norm_num)
  rw [this]
  norm_num

/-- C6 amended: the stored premium equals `round(−qty · rawEntryPrice, 2)`
for a `"BUY"` (Long) position and `round(+qty · rawEntryPrice, 2)` for a
`"SELL"` (Short) position, where `rawEntryPrice` is the *unrounded*
constructor argument (the stored `price_entry` is that argument rounded to 2
decimals); the premium is derived at construction only. -/
theorem C6_premium_formula (t : String) (strike qty vol rate mat pe : ℝ) :
    (OptionPosition.make t "BUY" strike qty vol rate mat pe).prime =
      round2 (-(qty * pe)) ∧
    (OptionPosition.make t "SELL" strike qty vol rate mat pe).prime =
      round2 (qty * pe) ∧
    (OptionPosition.make t "BUY" strike qty vol rate mat pe).price_entry =
      round2 pe := by
  refine ⟨?_, ?_, rfl⟩
  · show round2 (qty * pe * (if ("BUY" : String) = "BUY" then -1 else 1)) = _
    rw [if_pos rfl]
    exact congrArg round2 (by ring)
  · show round2 (qty * pe * (if ("SELL" : String) = "BUY" then -1 else 1)) = _
    rw [if_neg (by decide)]
    exact congrArg round2 (by ring)

/-- C9 counterexample: a Long (`"BUY"`) Call position with quantity 1 whose
entry price sits `0.004` below the model price at spot 100 has
`pnl(100) = round(0.004, 2) = 0`, which is not positive — the 2-decimal
rounding of `Option.pnl` defeats strict positivity. -/
theorem C9_counterexample :
    (⟨"Call", "BUY", 100, 1, 1 / 5, 1 / 100, 1 / 2,
        BlackScholes.price 100 100 (1 / 2) (1 / 100) (1 / 5) "Call" - 1 / 250,
        0⟩ : OptionPosition).price_entry <
      BlackScholes.price 100 100 (1 / 2) (1 / 100) (1 / 5) "Call" ∧
    ¬(0 < (⟨"Call", "BUY", 100, 1, 1 / 5, 1 / 100, 1 / 2,
        BlackScholes.price 100 100 (1 / 2) (1 / 100) (1 / 5) "Call" - 1 / 250,
        0⟩ : OptionPosition).pnl 100) := by
  constructor
  · show BlackScholes.price 100 100 (1 / 2) (1 / 100) (1 / 5) "Call" - 1 / 250 <
      BlackScholes.price 100 100 (1 / 2) (1 / 100) (1 / 5) "Call"
    linarith
  · have hpnl : (⟨"Call", "BUY", 100, 1, 1 / 5, 1 / 100, 1 / 2,
        BlackScholes.price 100 100 (1 / 2) (1 / 100) (1 / 5) "Call" - 1 / 250,
        0⟩ : OptionPosition).pnl 100 = 0 := by
      simp only [OptionPosition.pnl, String.reduceEq, reduceIte]
      rw [show (1 : ℝ) * 1 *
          (BlackScholes.price 100 100 (1 / 2) (1 / 100) (1 / 5) "Call" -
            (BlackScholes.price 100 100 (1 / 2) (1 / 100) (1 / 5) "Call" -
              1 / 250)) = 1 / 250 by ring]
      exact round2_eq_zero (by norm_num) (by norm_num)
    rw [hpnl]
    norm_num

/-- C9 amended: a Long (`"BUY"`) position with positive quantity whose
stored entry price is below the model price at a spot has *nonnegative*
`pnl(spot)`, and strictly positive `pnl(spot)` whenever
`qty · (price − entryPrice)` exceeds `1/200` (i.e. whenever the unrounded
PnL does not round down to 0); the `"SELL"` position with identical contract
parameters, quantity and entry price always has `pnl(spot)` equal to the
exact negation of the Long `pnl(spot)`. -/
theorem C9_long_short_pnl (o : OptionPosition) (spot : ℝ)
    (hside : o.side = "BUY") (hqty : 0 < o.qty)
    (hentry : o.price_entry <
      BlackScholes.price spot o.strike o.maturity o.rate o.vol o.type) :
    0 ≤ o.pnl spot ∧
    (1 / 200 < o.qty *
        (BlackScholes.price spot o.strike o.maturity o.rate o.vol o.type
          - o.price_entry) →
      0 < o.pnl spot) ∧
    ({ o with side := "SELL" } : OptionPosition).pnl spot = -(o.pnl spot) := by
  have hlong : o.pnl spot =
      round2 (o.qty *
        (BlackScholes.price spot o.strike o.maturity o.rate o.vol o.type
          - o.price_entry)) := by
    rw [OptionPosition.pnl, hside]
    simp only [String.reduceEq, reduceIte]
    exact congrArg round2 (by ring)
  refine ⟨?_, ?_, ?_⟩
  · rw [hlong]
    exact round2_nonneg (by nlinarith)
  · intro h
    rw [hlong]
    exact round2_pos h
  · have hshort : ({ o with side := "SELL" } : OptionPosition).pnl spot =
        round2 (-(o.qty *
          (BlackScholes.price spot o.strike o.maturity o.rate o.vol o.type
            - o.price_entry))) := by
      simp only [OptionPosition.pnl, String.reduceEq, reduceIte]
      exact congrArg round2 (by ring)
    rw [hshort, hlong, round2_neg]

theorem C9_long_short_pnl_witness :
    (⟨"Call", "BUY", 100, 1, 1 / 5, 1 / 100, 1 / 2,
        BlackScholes.price 100 100 (1 / 2) (1 / 100) (1 / 5) "Call" - 1,
        0⟩ : OptionPosition).side = "BUY" ∧
    (0 : ℝ) < 1 ∧
    0 ≤ (⟨"Call", "BUY", 100, 1, 1 / 5, 1 / 100, 1 / 2,
        BlackScholes.price 100 100 (1 / 2) (1 / 100) (1 / 5) "Call" - 1,
        0⟩ : OptionPosition).pnl 100 :=
  ⟨rfl, one_pos,
    (C9_long_short_pnl
      ⟨"Call", "BUY", 100, 1, 1 / 5, 1 / 100, 1 / 2,
        BlackScholes.price 100 100 (1 / 2) (1 / 100) (1 / 5) "Call" - 1, 0⟩
      100 rfl one_pos (sub_lt_self _ one_pos)).1⟩

/-- C10: any side string other than `"BUY"` is treated exactly as the
`"SELL"` (Short) side — in `Option.pnl`, in the curve contribution
accumulated by `Portfolio.portfolio_curves`, and in the premium derived at
construction (`+qty · rawEntryPrice`, the Short sign) — and any kind string
other than `"Call"` is priced with the Put branch of `price`, `delta`,
`theta` and `rho`; no operation rejects such strings (all of the modelled
functions are total on arbitrary strings). -/
theorem C10_invalid_strings_fallback (s k : String)
    (hs : s ≠ "BUY") (hk : k ≠ "Call") (o : OptionPosition)
    (spot S K T r sigma : ℝ) (t : String) (strike qty vol rate mat pe : ℝ) :
    ({ o with side := s } : OptionPosition).pnl spot =
      ({ o with side := "SELL" } : OptionPosition).pnl spot ∧
    optionCurves { o with side := s } =
      optionCurves { o with side := "SELL" } ∧
    (OptionPosition.make t s strike qty vol rate mat pe).prime =
      (OptionPosition.make t "SELL" strike qty vol rate mat pe).prime ∧
    BlackScholes.price S K T r sigma k = BlackScholes.price S K T r sigma "Put" ∧
    BlackScholes.delta S K T r sigma k = BlackScholes.delta S K T r sigma "Put" ∧
    BlackScholes.theta S K T r sigma k = BlackScholes.theta S K T r sigma "Put" ∧
    BlackScholes.rho S K T r sigma k = BlackScholes.rho S K T r sigma "Put" := by
  refine ⟨?_, ?_, ?_, ?_, ?_, ?_, ?_⟩
  · simp only [OptionPosition.pnl, String.reduceEq, reduceIte, if_neg hs]
  · simp only [optionCurves, String.reduceEq, reduceIte, if_neg hs]
  · simp only [OptionPosition.make, String.reduceEq, reduceIte, if_neg hs]
  · simp only [BlackScholes.price, String.reduceEq, reduceIte, if_neg hk]
  · simp only [BlackScholes.delta, String.reduceEq, reduceIte, if_neg hk]
  · simp only [BlackScholes.theta, String.reduceEq, reduceIte, if_neg hk]
  · simp only [BlackScholes.rho, String.reduceEq, reduceIte, if_neg hk]

theorem C10_invalid_strings_fallback_witness :
    ("LONG" : String) ≠ "BUY" ∧ ("put" : String) ≠ "Call" ∧
    ((⟨"Call", "LONG", 100, 1, 1 / 5, 1 / 100, 1 / 2, 5, 0⟩ :
        OptionPosition).pnl 100 =
      (⟨"Call", "SELL", 100, 1, 1 / 5, 1 / 100, 1 / 2, 5, 0⟩ :
        OptionPosition).pnl 100) ∧
    BlackScholes.price 100 100 (1 / 2) (1 / 100) (1 / 5) "put" =
      BlackScholes.price 100 100 (1 / 2) (1 / 100) (1 / 5) "Put" := by
  have h := C10_invalid_strings_fallback "LONG" "put" (by decide) (by decide)
    ⟨"Call", "BUY", 100, 1, 1 / 5, 1 / 100, 1 / 2, 5, 0⟩
    100 100 100 (1 / 2) (1 / 100) (1 / 5) "Call" 100 1 (1 / 5) (1 / 100)
    (1 / 2) 5
  exact ⟨by decide, by decide, h.1, h.2.2.2.1⟩

lemma zipWith_add_replicate_zero (xs : List ℝ) :
    List.zipWith (fun x y => x + y) (List.replicate xs.length (0 : ℝ)) xs = xs := by
  induction xs with
  | nil => rfl
  | cons a as ih => simp [List.replicate_succ, ih]

lemma zipWith_add_replicate_map (g : ℝ → ℝ) (xs : List ℝ) :
    List.zipWith (fun x y => x + y) (List.replicate xs.length (0 : ℝ))
      (xs.map g) = xs.map g := by
  rw [show xs.length = (xs.map g).length by rw [List.length_map]]
  exact zipWith_add_replicate_zero (xs.map g)

lemma addCurves_zeroCurves (o : OptionPosition) :
    addCurves zeroCurves (optionCurves o) = optionCurves o := by
  simp only [addCurves, zeroCurves, optionCurves, PortfolioCurves.mk.injEq]
  refine ⟨?_, ?_, ?_, ?_, ?_, ?_⟩ <;> exact zipWith_add_replicate_map _ spot_grid

lemma spot_grid_length : spot_grid.length = 200 := by
  rw [spot_grid, List.length_map, spot_grid_q, List.length_map, List.length_range]

/-- C4: aggregation linearity — the six curves returned by
`portfolio_curves` on a book `[p1, p2]` equal the elementwise sum
(`addCurves`) of the curves returned on `[p1]` alone and on `[p2]` alone. -/
theorem C4_curves_additive (p1 p2 : OptionPosition) :
    portfolio_curves [p1, p2] =
      addCurves (portfolio_curves [p1]) (portfolio_curves [p2]) := by
  simp only [portfolio_curves, List.foldl_cons, List.foldl_nil]
  rw [addCurves_zeroCurves p2]

/-- C5: `flatten()` followed by `portfolio_curves()` — equivalently,
`portfolio_curves` of the empty book — returns six all-zero sequences, each
of the SpotGrid's length, which is 200; the computation is total (never an
error). -/
theorem C5_flatten_zero_curves (book : List OptionPosition) :
    portfolio_curves (flatten book) = portfolio_curves [] ∧
    (portfolio_curves (flatten book)).pnl = List.replicate 200 (0 : ℝ) ∧
    (portfolio_curves (flatten book)).delta = List.replicate 200 (0 : ℝ) ∧
    (portfolio_curves (flatten book)).gamma = List.replicate 200 (0 : ℝ) ∧
    (portfolio_curves (flatten book)).vega = List.replicate 200 (0 : ℝ) ∧
    (portfolio_curves (flatten book)).theta = List.replicate 200 (0 : ℝ) ∧
    (portfolio_curves (flatten book)).rho = List.replicate 200 (0 : ℝ) ∧
    spot_grid.length = 200 := by
  refine ⟨rfl, ?_, ?_, ?_, ?_, ?_, ?_, spot_grid_length⟩ <;>
    · show List.replicate spot_grid.length (0 : ℝ) = List.replicate 200 (0 : ℝ)
      rw [spot_grid_length]

lemma searchsorted_le_length (gs : List ℚ) (x : ℚ) :
    searchsorted gs x ≤ gs.length := by
  induction gs with
  | nil => simp [searchsorted]
  | cons g gs ih =>
      rw [searchsorted]
      split
      · simp
      · simpa using Nat.succ_le_succ ih

lemma searchsorted_ge (gs : List ℚ) (x y : ℚ)
    (hy : gs.get? (searchsorted gs x) = some y) : x ≤ y := by
  induction gs generalizing y with
  | nil => simp at hy
  | cons g gs ih =>
      rw [searchsorted] at hy
      by_cases hx : x ≤ g
      · rw [if_pos hx] at hy
        simp only [List.get?_cons_zero, Option.some.injEq] at hy
        exact hy ▸ hx
      · rw [if_neg hx] at hy
        simp only [List.get?_cons_succ] at hy
        exact ih y hy

lemma searchsorted_lt (gs : List ℚ) (x : ℚ) (j : ℕ) (y : ℚ)
    (hj : j < searchsorted gs x) (hy : gs.get? j = some y) : y < x := by
  induction gs generalizing j y with
  | nil => simp [searchsorted] at hj
  | cons g gs ih =>
      rw [searchsorted] at hj
      by_cases hx : x ≤ g
      · rw [if_pos hx] at hj
        omega
      · rw [if_neg hx] at hj
        cases j with
        | zero =>
            simp only [List.get?_cons_zero, Option.some.injEq] at hy
            rw [← hy]
            exact lt_of_not_le hx
        | succ j =>
            simp only [List.get?_cons_succ] at hy
            exact ih j y (by omega) hy

/-- C3: the PnL-at-current-spot lookup computes
`spot_idx = searchsorted(SpotGrid, spot)` — the index of the first grid
point `≥ spot` (all earlier grid points are `< spot`) — and returns the PnL
curve entry at that index when it is in range; it always yields a value and
never an error: 0 for an empty curve, and 0 whenever the index is out of
range (the caught `IndexError`), which is what happens for a spot above the
upper bound of the grid. -/
theorem C3_current_pnl_lookup (pnlCurve : List ℝ) (spot : ℚ) :
    (∀ h : searchsorted spot_grid_q spot < pnlCurve.length,
      current_pnl pnlCurve spot =
        pnlCurve.get ⟨searchsorted spot_grid_q spot, h⟩) ∧
    (∀ y, spot_grid_q.get? (searchsorted spot_grid_q spot) = some y →
      spot ≤ y) ∧
    (∀ j y, j < searchsorted spot_grid_q spot → spot_grid_q.get? j = some y →
      y < spot) ∧
    (pnlCurve = [] → current_pnl pnlCurve spot = 0) ∧
    (pnlCurve.length ≤ searchsorted spot_grid_q spot →
      current_pnl pnlCurve spot = 0) := by
  refine ⟨?_, ?_, ?_, ?_, ?_⟩
  · intro h
    rw [current_pnl, if_pos (Nat.lt_of_le_of_lt (Nat.zero_le _) h),
      List.get?_eq_get h]
    rfl
  · exact fun y hy => searchsorted_ge spot_grid_q spot y hy
  · exact fun j y hj hy => searchsorted_lt spot_grid_q spot j y hj hy
  · intro h
    subst h
    rfl
  · intro hle
    rw [current_pnl]
    split
    · rw [List.get?_eq_none.2 hle]
      rfl
    · rfl

lemma spot_grid_q_length : spot_grid_q.length = 200 := by
  rw [spot_grid_q, List.length_map, List.length_range]

theorem C3_current_pnl_lookup_witness :
    current_pnl [] 0 = 0 ∧
    current_pnl (List.replicate 201 (42 : ℝ)) 0 = 42 := by
  constructor
  · exact (C3_current_pnl_lookup [] 0).2.2.2.1 rfl
  · have h : searchsorted spot_grid_q 0 < (List.replicate 201 (42 : ℝ)).length := by
      rw [List.length_replicate]
      have := searchsorted_le_length spot_grid_q 0
      rw [spot_grid_q_length] at this
      omega
    rw [(C3_current_pnl_lookup (List.replicate 201 (42 : ℝ)) 0).1 h]
    rw [List.get_eq_getElem]
    exact List.getElem_replicate _ _

/-- C7: a trade request whose explicit entry price is negative is rejected
before any position is constructed — `update_book` returns the book
unchanged together with the error flag `true` (the Dash callback surfaces
this boolean via the `prime-error` dialog and returns `no_update` for the
book); the function is total, so no exception escapes. -/
theorem C7_negative_price_rejected (book : List OptionPosition)
    (inp : TradeInput) (p : ℚ) (hp : inp.price_input = some p)
    (hneg : p < 0) :
    update_book book (some "trade") inp = (book, true) := by
  rw [update_book]
  simp only [hp, Option.getD_some]
  rw [if_pos trivial, if_pos hneg,
    if_neg (show ¬((some "trade" : Option String) = some "flatten") by decide)]

theorem C7_negative_price_rejected_witness :
    (⟨none, none, none, none, none, none, none, none, some (-1)⟩ :
      TradeInput).price_input = some (-1) ∧
    (-1 : ℚ) < 0 ∧
    update_book [] (some "trade")
      ⟨none, none, none, none, none, none, none, none, some (-1)⟩ =
      ([], true) :=
  ⟨rfl, by norm_num,
    C7_negative_price_rejected []
      ⟨none, none, none, none, none, none, none, none, some (-1)⟩
      (-1) rfl (by norm_num)⟩

/-- C2 counterexample: a trade with an explicitly degenerate volatility
(`vol = −1 ≤ 0`) is not rejected — `update_book` constructs the Option with
that volatility, appends it to the book, and reports no error; the same
code path likewise accepts `maturity ≤ 0` and `strike ≤ 0`, refuting the
claim that degenerate inputs are rejected at position-construction time. -/
theorem C2_counterexample :
    update_book [] (some "trade")
      ⟨none, none, none, none, none, some (-1), none, none, some 5⟩ =
      ([OptionPosition.make "Call" "BUY" 100 1 (-1) (1 / 100) (1 / 2) 5],
        false) ∧
    (OptionPosition.make "Call" "BUY" 100 1 (-1) (1 / 100) (1 / 2) 5).vol ≤
      0 := by
  constructor
  · rw [update_book]
    simp only [Option.getD_some, Option.getD_none]
    rw [if_pos trivial, if_neg (by norm_num : ¬(5 : ℚ) < 0),
      if_neg (show ¬((none : Option String) = some "Call" ∨
        (none : Option String) = some "Put") by decide),
      if_neg (show ¬((none : Option String) = some "BUY" ∨
        (none : Option String) = some "SELL") by decide),
      if_pos (by norm_num : (0 : ℚ) < 5),
      if_neg (show ¬((some "trade" : Option String) = some "flatten") by
        decide)]
    rw [add_option]
    push_cast
    norm_num
  · show (-1 : ℝ) ≤ 0
    norm_num

/-- C2 amended: position construction performs no validation of
`volatility`, `maturity` or `strike` — for every explicit (possibly
degenerate, e.g. nonpositive) values `v`, `m`, `k` and positive explicit
entry price, the trade is accepted, an Option carrying exactly those values
is appended to the book, and no error is flagged; defaults are substituted
only for missing (`None`) inputs, never for degenerate ones. -/
theorem C2_no_validation (book : List OptionPosition) (v m k p : ℚ)
    (hp : 0 < p) :
    update_book book (some "trade")
      ⟨none, none, some k, none, none, some v, none, some m, some p⟩ =
      (book ++ [OptionPosition.make "Call" "BUY" (k : ℝ) 1 (v : ℝ) (1 / 100)
        (m : ℝ) (p : ℝ)], false) := by
  rw [update_book]
  simp only [Option.getD_some, Option.getD_none]
  rw [if_pos trivial, if_neg (by linarith : ¬p < 0),
    if_neg (show ¬((none : Option String) = some "Call" ∨
      (none : Option String) = some "Put") by decide),
    if_neg (show ¬((none : Option String) = some "BUY" ∨
      (none : Option String) = some "SELL") by decide),
    if_pos hp,
    if_neg (show ¬((some "trade" : Option String) = some "flatten") by
      decide)]
  rw [add_option]
  push_cast
  norm_num

theorem C2_no_validation_witness :
    (0 : ℚ) < 5 ∧
    update_book [] (some "trade")
      ⟨none, none, some (-3), none, none, some (-1), none, some (-2),
        some 5⟩ =
      ([] ++ [OptionPosition.make "Call" "BUY" ((-3 : ℚ) : ℝ) 1
        ((-1 : ℚ) : ℝ) (1 / 100) ((-2 : ℚ) : ℝ) ((5 : ℚ) : ℝ)], false) :=
  ⟨by norm_num, by
    have h := C2_no_validation [] (-1) (-2) (-3) 5 (by norm_num)
    exact h⟩
